import Mathlib

/-!
Verification development for the labcat.nz content/image migration pipeline.

The TypeScript sources are shallowly embedded as Lean definitions:

* JavaScript strings are modelled as Lean `String` (sequences of Unicode
  scalar values); `null`/`undefined` string values as `Option String`.
* The WHATWG `new URL(...)` constructor is modelled for absolute
  `http://` / `https://` URLs whose authority and path are already in
  canonical percent-encoded form; all other inputs are treated as a parse
  failure (a thrown `TypeError`).  This covers every URL shape the
  migration pipeline and the theorems below exercise.
* JavaScript exceptions are modelled with `Except`; the distinguishing
  error classes (`MigrationError`, plain `Error`, `TypeError`, `URIError`)
  become constructors of `JsThrow`.
* The database table backing an upsert run is modelled as a `List` of
  stored rows together with the next auto-increment identity value.
* `new Date().toISOString()` (the run timestamp) is passed in explicitly
  as a `now : String` parameter.
-/

/-! ### JavaScript string primitives -/

/-- Single-quote character (used to build SQL escaping strings). -/
def quoteChar : Char := Char.ofNat 39

/-- `s.startsWith(p)` on JavaScript strings. -/
def jsStartsWith (s p : String) : Bool :=
  p.toList.isPrefixOf s.toList

/-- The whitespace set recognised by `String.prototype.trim`. -/
def isJsWs (c : Char) : Bool :=
  c == ' ' || c == Char.ofNat 9 || c == Char.ofNat 10 || c == Char.ofNat 11 ||
  c == Char.ofNat 12 || c == Char.ofNat 13 || c == Char.ofNat 160 ||
  c == Char.ofNat 65279 || c == Char.ofNat 8232 || c == Char.ofNat 8233

/-- `s.trim()` on JavaScript strings. -/
def jsTrim (s : String) : String :=
  ⟨((s.toList.dropWhile isJsWs).reverse.dropWhile isJsWs).reverse⟩

/-- `String.fromCharCode(n)`: the code unit `n mod 2^16` as a character
(lone surrogates, which Lean cannot represent, fall back to `Char.ofNat`'s
default). -/
def fromCharCode (n : Nat) : Char := Char.ofNat (n % 65536)

/-- Replace every (leftmost, non-overlapping) occurrence of the pattern
`p0 :: ps` by `rep`, as `String.prototype.replace` with a global literal
regex does.  Structural recursion on a fuel bound (any fuel at least the
input length gives the untruncated result, since every step consumes at
least one character). -/
def replAllF (p0 : Char) (ps rep : List Char) : Nat → List Char → List Char
  | 0, l => l
  | _ + 1, [] => []
  | fuel + 1, c :: cs =>
    if (p0 :: ps).isPrefixOf (c :: cs) then
      rep ++ replAllF p0 ps rep fuel (cs.drop ps.length)
    else
      c :: replAllF p0 ps rep fuel cs

/-- `value.replace(/pat/g, rep)` for a non-empty literal pattern. -/
def jsReplaceAll (pat rep s : String) : String :=
  match pat.toList with
  | [] => s
  | p :: ps => ⟨replAllF p ps rep.toList s.toList.length s.toList⟩

/-! ### `new URL(...)` model -/

structure JsURL where
  scheme : String
  authority : String
  pathname : String
  search : String
deriving DecidableEq, Repr

/-- Characters ending the authority component. -/
def authDelim (c : Char) : Bool := c == '/' || c == '?' || c == '#'

/-- Characters ending the path component. -/
def pathDelim (c : Char) : Bool := c == '?' || c == '#'

def jsURLFrom (scheme : String) (rest : List Char) : Option JsURL :=
  let auth := rest.takeWhile (fun c => !authDelim c)
  let tail := rest.dropWhile (fun c => !authDelim c)
  if auth.isEmpty then none
  else
    match tail with
    | '/' :: _ =>
      some ⟨scheme, ⟨auth⟩, ⟨tail.takeWhile (fun c => !pathDelim c)⟩,
        ⟨tail.dropWhile (fun c => !pathDelim c)⟩⟩
    | _ => some ⟨scheme, ⟨auth⟩, "/", ⟨tail⟩⟩

/-- Model of `new URL(value)` restricted to absolute http(s) URLs in
canonical form; `none` models the constructor throwing `TypeError`. -/
def jsURL (s : String) : Option JsURL :=
  if jsStartsWith s "https://" then jsURLFrom "https" (s.toList.drop 8)
  else if jsStartsWith s "http://" then jsURLFrom "http" (s.toList.drop 7)
  else none

/-- `split(sep)` on character lists (single-character separator, as the
code uses). -/
def splitChar (sep : Char) : List Char → List (List Char)
  | [] => [[]]
  | c :: cs =>
    let r := splitChar sep cs
    if c = sep then [] :: r
    else
      match r with
      | h :: t => (c :: h) :: t
      | [] => [[c]]

/-- `s.split("/").pop()` — the last `/`-separated segment (the result is
never `undefined` because `split` always yields at least one element). -/
def lastSeg (s : String) : String :=
  ⟨((splitChar '/' s.toList).getLast?).getD []⟩

/-- `s.split(".").pop()` — the last `.`-separated segment. -/
def lastDotSeg (s : String) : String :=
  ⟨((splitChar '.' s.toList).getLast?).getD []⟩

/-- `s.toLowerCase()` (ASCII range, which is all the pipeline feeds it). -/
def jsToLower (s : String) : String := ⟨s.toList.map Char.toLower⟩

/-! ### `decodeURIComponent` model -/

def hexVal (c : Char) : Option Nat :=
  if '0' ≤ c ∧ c ≤ '9' then some (c.toNat - 48)
  else if 'a' ≤ c ∧ c ≤ 'f' then some (c.toNat - 87)
  else if 'A' ≤ c ∧ c ≤ 'F' then some (c.toNat - 55)
  else none

/-- UTF-8 encoding of one scalar value, as a list of byte values. -/
def utf8Enc (n : Nat) : List Nat :=
  if n < 128 then [n]
  else if n < 2048 then [192 + n / 64, 128 + n % 64]
  else if n < 65536 then [224 + n / 4096, 128 + (n / 64) % 64, 128 + n % 64]
  else [240 + n / 262144, 128 + (n / 4096) % 64, 128 + (n / 64) % 64, 128 + n % 64]

/-- Strict UTF-8 decoding of a list of byte values (rejecting overlong
forms, surrogates and out-of-range scalars, as `decodeURIComponent` does). -/
def utf8Dec : List Nat → Option (List Char)
  | [] => some []
  | b :: bs =>
    if b < 128 then (Char.ofNat b :: ·) <$> utf8Dec bs
    else if b < 194 then none
    else if b < 224 then
      match bs with
      | b2 :: rest =>
        if 128 ≤ b2 ∧ b2 < 192 then
          (Char.ofNat ((b - 192) * 64 + (b2 - 128)) :: ·) <$> utf8Dec rest
        else none
      | _ => none
    else if b < 240 then
      match bs with
      | b2 :: b3 :: rest =>
        if 128 ≤ b2 ∧ b2 < 192 ∧ 128 ≤ b3 ∧ b3 < 192 then
          let n := (b - 224) * 4096 + (b2 - 128) * 64 + (b3 - 128)
          if 2048 ≤ n ∧ ¬(55296 ≤ n ∧ n ≤ 57343) then
            (Char.ofNat n :: ·) <$> utf8Dec rest
          else none
        else none
      | _ => none
    else if b < 245 then
      match bs with
      | b2 :: b3 :: b4 :: rest =>
        if 128 ≤ b2 ∧ b2 < 192 ∧ 128 ≤ b3 ∧ b3 < 192 ∧ 128 ≤ b4 ∧ b4 < 192 then
          let n := (b - 240) * 262144 + (b2 - 128) * 4096 + (b3 - 128) * 64 + (b4 - 128)
          if 65536 ≤ n ∧ n ≤ 1114111 then
            (Char.ofNat n :: ·) <$> utf8Dec rest
          else none
        else none
      | _ => none
    else none

/-- Collect the byte sequence denoted by a percent-encoded character list
(`%XX` pairs become bytes, other characters contribute their UTF-8 bytes). -/
def pctBytes : List Char → Option (List Nat)
  | [] => some []
  | '%' :: a :: b :: rest =>
    match hexVal a, hexVal b with
    | some x, some y => (fun t => (x * 16 + y) :: t) <$> pctBytes rest
    | _, _ => none
  | '%' :: _ => none
  | c :: rest => (fun t => utf8Enc c.toNat ++ t) <$> pctBytes rest

instance {e a : Type} [DecidableEq e] [DecidableEq a] : DecidableEq (Except e a) :=
  fun x y =>
    match x, y with
    | .ok v, .ok w =>
      if h : v = w then isTrue (by rw [h]) else isFalse (by intro hh; cases hh; exact h rfl)
    | .error v, .error w =>
      if h : v = w then isTrue (by rw [h]) else isFalse (by intro hh; cases hh; exact h rfl)
    | .ok _, .error _ => isFalse (by intro hh; cases hh)
    | .error _, .ok _ => isFalse (by intro hh; cases hh)

/-- Model of `decodeURIComponent`; `Except.error` models a thrown
`URIError`. -/
def decodeURIComponentM (s : String) : Except String String :=
  match pctBytes s.toList with
  | none => .error "URI malformed"
  | some bs =>
    match utf8Dec bs with
    | none => .error "URI malformed"
    | some cs => .ok ⟨cs⟩

/-! ### HTML tag stripping and entity decoding (shared library) -/

theorem dropWhileLen {α : Type} (p : α → Bool) :
    ∀ l : List α, (l.dropWhile p).length ≤ l.length := by
  intro l
  induction l with
  | nil => simp
  | cons c cs ih =>
    by_cases h : p c
    · simp [List.dropWhile, h]; omega
    · simp [List.dropWhile, h]

/-- Advance past a `<[^>]*>` regex match: drop up to and including the
first `>`, or `none` if there is no `>`. -/
def scanTag (l : List Char) : Option (List Char) :=
  match l.dropWhile (fun c => c != '>') with
  | [] => none
  | _ :: rest => some rest

theorem scanTag_length (l r : List Char) (h : scanTag l = some r) :
    r.length < l.length := by
  unfold scanTag at h
  rcases hd : l.dropWhile (fun c => c != '>') with _ | ⟨c, rest⟩ <;> rw [hd] at h
  · cases h
  · cases h
    have hle := dropWhileLen (fun c => c != '>') l
    rw [hd] at hle
    simp at hle
    omega

/-- `value.replace(/<[^>]*>/g, "")` over character lists (fuelled
structural recursion; fuel at least the input length is exact). -/
def stripHtmlF : Nat → List Char → List Char
  | 0, l => l
  | _ + 1, [] => []
  | fuel + 1, c :: cs =>
    if c = '<' then
      match scanTag cs with
      | some rest => stripHtmlF fuel rest
      | none => c :: stripHtmlF fuel cs
    else
      c :: stripHtmlF fuel cs

def stripHtmlL (l : List Char) : List Char := stripHtmlF l.length l

/-- `stripHtml` from the shared migration library. -/
def stripHtml (value : String) : String := ⟨stripHtmlL value.toList⟩

/-- Digit-run value, `Number(dec)` for a digit string. -/
def digitsVal (ds : List Char) : Nat :=
  ds.foldl (fun a c => a * 10 + (c.toNat - 48)) 0

/-- Hex-run value, `parseInt(hex, 16)`. -/
def hexDigitsVal (ds : List Char) : Nat :=
  ds.foldl (fun a c => a * 16 + ((hexVal c).getD 0)) 0

/-- Is `c` a character matched by the regex class `[0-9a-fA-F]`. -/
def isHexChar (c : Char) : Bool := (hexVal c).isSome

/-- `value.replace(/&#(\d+);/g, (_, dec) => String.fromCharCode(Number(dec)))`
(fuelled structural recursion; fuel at least the input length is exact). -/
def decDecF : Nat → List Char → List Char
  | 0, l => l
  | _ + 1, [] => []
  | fuel + 1, '&' :: '#' :: rest2 =>
    if (rest2.takeWhile Char.isDigit).isEmpty then
      '&' :: decDecF fuel ('#' :: rest2)
    else
      match rest2.dropWhile Char.isDigit with
      | ';' :: rem2 =>
        fromCharCode (digitsVal (rest2.takeWhile Char.isDigit)) :: decDecF fuel rem2
      | _ => '&' :: decDecF fuel ('#' :: rest2)
  | fuel + 1, c :: cs => c :: decDecF fuel cs

def decDecL (l : List Char) : List Char := decDecF l.length l

/-- `value.replace(/&#x([0-9a-fA-F]+);/g, (_, hex) =>
String.fromCharCode(parseInt(hex, 16)))` (fuelled structural recursion). -/
def decHexF : Nat → List Char → List Char
  | 0, l => l
  | _ + 1, [] => []
  | fuel + 1, '&' :: '#' :: 'x' :: rest2 =>
    if (rest2.takeWhile isHexChar).isEmpty then
      '&' :: decHexF fuel ('#' :: 'x' :: rest2)
    else
      match rest2.dropWhile isHexChar with
      | ';' :: rem2 =>
        fromCharCode (hexDigitsVal (rest2.takeWhile isHexChar)) :: decHexF fuel rem2
      | _ => '&' :: decHexF fuel ('#' :: 'x' :: rest2)
  | fuel + 1, c :: cs => c :: decHexF fuel cs

def decHexL (l : List Char) : List Char := decHexF l.length l

/-- `decodeHtmlEntities` from the shared migration library: numeric
decimal pass, numeric hex pass, the five named entities, then `trim()`. -/
def decodeHtmlEntities (value : String) : String :=
  jsTrim
    (jsReplaceAll "&apos;" (String.singleton quoteChar)
      (jsReplaceAll "&quot;" "\""
        (jsReplaceAll "&gt;" ">"
          (jsReplaceAll "&lt;" "<"
            (jsReplaceAll "&amp;" "&"
              ⟨decHexL (decDecL value.toList)⟩)))))

/-- Title normalisation as performed by `normalizeBase` /
`normalizeAudioProject`: `decodeHtmlEntities(stripHtml(title.rendered))`. -/
def normalizeTitle (s : String) : String := decodeHtmlEntities (stripHtml s)

/-! ### Shared migration library (`src/migrations/audioProjects.ts`, bulk
version): data model -/

/-- Raw WordPress record shape consumed by the bulk normalizer.  Fields the
code reads through legacy aliases are modelled as `Option` fields (`none`
for `null`/`undefined`/absent).  `titleRendered` models `title.rendered`,
`contentRendered` models `content?.rendered ?? null`. -/
structure WordPressBase where
  slug : String
  status : String
  type : String
  titleRendered : String
  contentRendered : Option String := none
  featuredImage : Option String := none
  featured_image : Option String := none
  featured_media_url : Option String := none
  featuredImages : Option (List String) := none
  featured_images : Option (List String) := none
  gallery_images : Option (List String) := none
  date_gmt : Option String := none
  modified_gmt : Option String := none
  reactComponent : Option String := none
  react_component : Option String := none
  animationLink : Option String := none
  animation_link : Option String := none
  animationURL : Option String := none
deriving DecidableEq, Repr

/-- `NormalizedContent`: normalized base fields plus the three optional
type-specific extra fields. -/
structure NormalizedContent where
  slug : String
  status : String
  type : String
  title : String
  featuredImage : Option String
  featuredImages : Option (List String)
  created : String
  modified : String
  content : Option String := none
  reactComponent : Option String := none
  animationLink : Option String := none
deriving DecidableEq, Repr

structure ImageMapping where
  source : String
  target : String
deriving DecidableEq, Repr

/-- The extra columns that appear in `CONTENT_CONFIGS[*].extraColumns`. -/
inductive ExtraColumn
  | content
  | reactComponent
  | animationLink
deriving DecidableEq, Repr

def getExtra (p : NormalizedContent) : ExtraColumn → Option String
  | .content => p.content
  | .reactComponent => p.reactComponent
  | .animationLink => p.animationLink

def extraName : ExtraColumn → String
  | .content => "content"
  | .reactComponent => "reactComponent"
  | .animationLink => "animationLink"

/-! ### URL rewriter -/

def R2_BASE_URL : String := "https://images.labcat.nz"

/-- The literal template prefix compared and emitted by `convertImageUrl`:
the pattern is the actual JS template string concatenation. -/
def targetBaseOf (folder : String) : String :=
  R2_BASE_URL ++ "/" ++ folder ++ "/"

/-- `convertImageUrl` from the shared library (the URL Rewriter). -/
def convertImageUrl (value : Option String) (folder : String) : Option String :=
  match value with
  | none => none
  | some v =>
    if v = "" then none
    else if jsStartsWith v (targetBaseOf folder) then some v
    else
      match jsURL v with
      | none => none
      | some u =>
        let filename := lastSeg u.pathname
        if filename = "" then none
        else some (targetBaseOf folder ++ filename)

/-- `convertImageArray` from the shared library. -/
def convertImageArray (values : Option (List String)) (folder : String) :
    Option (List String) :=
  match values with
  | none => none
  | some l =>
    if l.length = 0 then none
    else
      let converted := l.filterMap (fun v => convertImageUrl (some v) folder)
      if converted.length > 0 then some converted else none

/-! ### Field extraction -/

def extractFeaturedImage (p : WordPressBase) : Option String :=
  match p.featuredImage <|> p.featured_image <|> p.featured_media_url with
  | some s => if s.length > 0 then some s else none
  | none => none

def extractFeaturedImages (p : WordPressBase) : Option (List String) :=
  match p.featuredImages <|> p.featured_images <|> p.gallery_images with
  | some l => if l.length = 0 then none else some (l.filter (fun s => s.length > 0))
  | none => none

def extractRendered (content : Option String) : Option String := content

def extractString (value : Option String) : Option String :=
  match value with
  | some s => if (jsTrim s).length > 0 then some s else none
  | none => none

/-! ### Normalizer -/

/-- `normalizeBase(project, folder)`; `now` stands for
`new Date().toISOString()` at the time of the run. -/
def normalizeBase (now : String) (p : WordPressBase) (folder : String) :
    NormalizedContent :=
  { slug := p.slug
    status := p.status
    type := p.type
    title := normalizeTitle p.titleRendered
    featuredImage := convertImageUrl (extractFeaturedImage p) folder
    featuredImages := convertImageArray (extractFeaturedImages p) folder
    created := p.date_gmt.getD now
    modified := p.modified_gmt.getD now }

/-- The result of `config.mapExtras(project)` spread over the base record:
the three extra fields it contributes. -/
structure ExtrasPatch where
  content : Option String := none
  reactComponent : Option String := none
  animationLink : Option String := none
deriving DecidableEq, Repr

/-- `{ ...normalizeBase(project, folder), ...config.mapExtras(project) }`. -/
def normalizeWith (now : String) (folder : String)
    (mapExtras : WordPressBase → ExtrasPatch) (p : WordPressBase) :
    NormalizedContent :=
  let base := normalizeBase now p folder
  let e := mapExtras p
  { base with
    content := e.content
    reactComponent := e.reactComponent
    animationLink := e.animationLink }

/-! ### Image mapping collector -/

/-- The positional `featuredImages` loop body of `createImageMappings`:
walks `min(sourceImages.length, project.featuredImages.length)` index
pairs and keeps those where both entries are truthy (non-empty). -/
def mapLoop : List String → List String → List ImageMapping
  | s :: ss, t :: ts =>
    (if s ≠ "" ∧ t ≠ "" then [⟨s, t⟩] else []) ++ mapLoop ss ts
  | _, _ => []

/-- Mappings contributed by one (raw, normalized) record pair. -/
def pairMappings (src : WordPressBase) (p : NormalizedContent) :
    List ImageMapping :=
  let m1 :=
    match p.featuredImage, extractFeaturedImage src with
    | some t, some s => if t ≠ "" ∧ s ≠ "" then [(⟨s, t⟩ : ImageMapping)] else []
    | _, _ => []
  let m2 :=
    match p.featuredImages, extractFeaturedImages src with
    | some tgt, some srcl => mapLoop srcl tgt
    | _, _ => []
  m1 ++ m2

/-- `createImageMappings(raw, normalized)`: iterate the normalized list,
pairing each entry with the raw record at the same index (indices with no
raw counterpart are skipped). -/
def createImageMappingsGo : List NormalizedContent → List WordPressBase →
    List ImageMapping
  | p :: ps, r :: rs => pairMappings r p ++ createImageMappingsGo ps rs
  | _, _ => []

def createImageMappings (raw : List WordPressBase)
    (normalized : List NormalizedContent) : List ImageMapping :=
  createImageMappingsGo normalized raw

/-! ### Content configs and fetcher -/

structure ContentConfig where
  type : String
  source : String
  tableName : String
  r2Folder : String
  extraColumns : List ExtraColumn
  mapExtras : WordPressBase → ExtrasPatch

def pagesConfig : ContentConfig :=
  { type := "pages"
    source := "https://mysite.labcat.nz/wp-json/wp/v2/pages?per_page=99&_embed=1"
    tableName := "pages"
    r2Folder := "pages"
    extraColumns := [.reactComponent]
    mapExtras := fun p =>
      { reactComponent := extractString (p.reactComponent <|> p.react_component) } }

def buildingBlocksConfig : ContentConfig :=
  { type := "building-blocks"
    source := "https://mysite.labcat.nz/wp-json/wp/v2/building-blocks?per_page=99&_embed=1"
    tableName := "building_blocks"
    r2Folder := "building-blocks"
    extraColumns := []
    mapExtras := fun _ => {} }

def animationsConfig : ContentConfig :=
  { type := "animations"
    source := "https://mysite.labcat.nz/wp-json/wp/v2/animations?per_page=99&_embed=1"
    tableName := "animations"
    r2Folder := "animations"
    extraColumns := [.animationLink]
    mapExtras := fun p =>
      { animationLink :=
          extractString p.animationLink <|>
          extractString p.animation_link <|>
          extractString p.animationURL } }

def creativeCodingConfig : ContentConfig :=
  { type := "creative-coding"
    source := "https://mysite.labcat.nz/wp-json/wp/v2/creative-coding?per_page=99&_embed=1"
    tableName := "creative_coding"
    r2Folder := "creative-coding"
    extraColumns := [.content]
    mapExtras := fun p => { content := extractRendered p.contentRendered } }

def audioProjectsConfig : ContentConfig :=
  { type := "audio-projects"
    source := "https://mysite.labcat.nz/wp-json/wp/v2/audio-projects?per_page=99&_embed=1"
    tableName := "audio_projects"
    r2Folder := "audio-projects"
    extraColumns := [.content]
    mapExtras := fun p => { content := extractRendered p.contentRendered } }

def CONTENT_CONFIGS : List ContentConfig :=
  [pagesConfig, buildingBlocksConfig, animationsConfig, creativeCodingConfig,
   audioProjectsConfig]

structure ContentFetchResult where
  type : String
  tableName : String
  normalizedProjects : List NormalizedContent
  sourceCount : Nat
  migratedCount : Nat
  imageMappings : List ImageMapping
  extraColumns : List ExtraColumn
deriving Repr

/-- Thrown JavaScript errors, distinguished by class. -/
inductive JsThrow
  | migrationError (msg : String)
  | jsError (msg : String)
  | typeError (msg : String)
  | uriError (msg : String)
deriving DecidableEq, Repr

/-- A fetch response whose JSON body either is a list of records of shape
`α` or is not a list at all. -/
inductive FetchBody (α : Type)
  | list (records : List α)
  | nonList
deriving DecidableEq, Repr

structure JsResponse (α : Type) where
  ok : Bool
  status : Nat
  statusText : String
  body : FetchBody α
deriving Repr

/-- The pure tail of `fetchNormalizedContent` once the raw record list is
in hand. -/
def fetchPure (config : ContentConfig) (now : String)
    (rawProjects : List WordPressBase) : ContentFetchResult :=
  let normalizedProjects :=
    rawProjects.map (normalizeWith now config.r2Folder config.mapExtras)
  { type := config.type
    tableName := config.tableName
    normalizedProjects := normalizedProjects
    sourceCount := rawProjects.length
    migratedCount := normalizedProjects.length
    imageMappings := createImageMappings rawProjects normalizedProjects
    extraColumns := config.extraColumns }

/-- `fetchNormalizedContent(config)` as a function of the HTTP response.
A non-ok response throws a `MigrationError` carrying status and reason; a
non-list JSON body makes the subsequent `rawProjects.map` call throw a
`TypeError` (the code casts without checking). -/
def fetchNormalizedContentE (config : ContentConfig) (now : String)
    (resp : JsResponse WordPressBase) : Except JsThrow ContentFetchResult :=
  if resp.ok = false then
    .error (.migrationError
      ("Failed to fetch " ++ config.type ++ ": " ++ toString resp.status ++
        " " ++ resp.statusText))
  else
    match resp.body with
    | .list rawProjects => .ok (fetchPure config now rawProjects)
    | .nonList => .error (.typeError "rawProjects.map is not a function")

/-! ### Upsert engine (`upsertContent` in the shared library) -/

/-- A stored row: a `NormalizedContent` plus the auto-increment identity. -/
structure StoredRow where
  id : Nat
  slug : String
  status : String
  type : String
  title : String
  featuredImage : Option String
  featuredImages : Option (List String)
  created : String
  modified : String
  content : Option String
  reactComponent : Option String
  animationLink : Option String
deriving DecidableEq, Repr

def getExtraS (r : StoredRow) : ExtraColumn → Option String
  | .content => r.content
  | .reactComponent => r.reactComponent
  | .animationLink => r.animationLink

def setExtraS (r : StoredRow) : ExtraColumn → Option String → StoredRow
  | .content, v => { r with content := v }
  | .reactComponent, v => { r with reactComponent := v }
  | .animationLink, v => { r with animationLink := v }

/-- `db.insert(table).values(project)` materialised with identity `id`. -/
def toStored (p : NormalizedContent) (id : Nat) : StoredRow :=
  { id := id
    slug := p.slug
    status := p.status
    type := p.type
    title := p.title
    featuredImage := p.featuredImage
    featuredImages := p.featuredImages
    created := p.created
    modified := p.modified
    content := p.content
    reactComponent := p.reactComponent
    animationLink := p.animationLink }

/-- `buildUpdatePayload(project, extraColumns)`: the base assignments plus
one dynamic assignment per extra column. -/
structure UpdatePayload where
  status : String
  type : String
  title : String
  featuredImage : Option String
  featuredImages : Option (List String)
  modified : String
  extras : List (ExtraColumn × Option String)
deriving DecidableEq, Repr

def buildUpdatePayload (p : NormalizedContent) (extraColumns : List ExtraColumn) :
    UpdatePayload :=
  { status := p.status
    type := p.type
    title := p.title
    featuredImage := p.featuredImage
    featuredImages := p.featuredImages
    modified := p.modified
    extras := extraColumns.map (fun c => (c, getExtra p c)) }

/-- `db.update(table).set(payload)` applied to one row. -/
def applyPayload (r : StoredRow) (pl : UpdatePayload) : StoredRow :=
  pl.extras.foldl (fun acc cv => setExtraS acc cv.1 cv.2)
    { r with
      status := pl.status
      type := pl.type
      title := pl.title
      featuredImage := pl.featuredImage
      featuredImages := pl.featuredImages
      modified := pl.modified }

structure UpsertResult where
  table : List StoredRow
  nextId : Nat
  inserted : Nat
  updated : Nat
deriving DecidableEq, Repr

/-- The per-row loop of `upsertContent`: select the first row whose slug
matches, update it by identity if found, insert otherwise. -/
def upsertGo (extras : List ExtraColumn) :
    List NormalizedContent → List StoredRow → Nat → Nat → Nat → UpsertResult
  | [], table, nid, ins, upd => ⟨table, nid, ins, upd⟩
  | p :: ps, table, nid, ins, upd =>
    match table.find? (fun r => r.slug == p.slug) with
    | some r =>
      upsertGo extras ps
        (table.map (fun row =>
          if row.id == r.id then applyPayload row (buildUpdatePayload p extras)
          else row))
        nid ins (upd + 1)
    | none =>
      upsertGo extras ps (table ++ [toStored p nid]) (nid + 1) (ins + 1) upd

/-- `upsertContent(db, table, projects, extraColumns)` against a table
state `table` whose next auto-increment identity is `nid`. -/
def upsertContent (table : List StoredRow) (nid : Nat)
    (projects : List NormalizedContent) (extras : List ExtraColumn) :
    UpsertResult :=
  upsertGo extras projects table nid 0 0

/-! ### Single-type audio variant (`src/src/migrations/audioProjects.ts`) -/

/-- `MigratedAudioProject` of the single-type audio module. -/
structure AudioProject where
  slug : String
  status : String
  type : String
  title : String
  featuredImage : Option String
  featuredImages : Option (List String)
  content : Option String
  created : String
  modified : String
deriving DecidableEq, Repr

/-- Raw record shape of the single-type audio module (no legacy aliases). -/
structure WPAudioProject where
  slug : String
  status : String
  type : String
  titleRendered : String
  contentRendered : Option String := none
  featuredImage : Option String := none
  featuredImages : Option (List String) := none
  date_gmt : Option String := none
  modified_gmt : Option String := none
deriving DecidableEq, Repr

/-- `normalizeAudioProject` (folder fixed to `audio-projects`). -/
def normalizeAudioProject (now : String) (p : WPAudioProject) : AudioProject :=
  { slug := p.slug
    status := p.status
    type := p.type
    title := normalizeTitle p.titleRendered
    featuredImage := convertImageUrl p.featuredImage "audio-projects"
    featuredImages := convertImageArray p.featuredImages "audio-projects"
    content := p.contentRendered
    created := p.date_gmt.getD now
    modified := p.modified_gmt.getD now }

structure AudioFetchResult where
  sourceCount : Nat
  migratedCount : Nat
  normalizedProjects : List AudioProject
  imageMappings : List ImageMapping
deriving Repr

/-- The pure tail of `fetchNormalizedAudioProjects` (single-type module).
Its `createImageMappings` reads `sourceProject.featuredImage` /
`sourceProject.featuredImages` directly, without the alias extraction. -/
def audioMapLoopT : List String → List String → List ImageMapping
  | t :: ts, s :: ss =>
    (if t ≠ "" ∧ s ≠ "" then [(⟨s, t⟩ : ImageMapping)] else []) ++ audioMapLoopT ts ss
  | t :: ts, [] => audioMapLoopT ts []
  | [], _ => []

def audioPairMappings (src : WPAudioProject) (p : AudioProject) :
    List ImageMapping :=
  let m1 :=
    match p.featuredImage, src.featuredImage with
    | some t, some s => if t ≠ "" ∧ s ≠ "" then [(⟨s, t⟩ : ImageMapping)] else []
    | _, _ => []
  let m2 :=
    match p.featuredImages, src.featuredImages with
    | some tgt, some srcl =>
      if srcl.length > 0 then audioMapLoopT tgt srcl else []
    | _, _ => []
  m1 ++ m2

def audioImageMappingsGo : List AudioProject → List WPAudioProject →
    List ImageMapping
  | p :: ps, r :: rs => audioPairMappings r p ++ audioImageMappingsGo ps rs
  | _, _ => []

def fetchAudioPure (now : String) (rawProjects : List WPAudioProject) :
    AudioFetchResult :=
  let normalized := rawProjects.map (normalizeAudioProject now)
  { sourceCount := rawProjects.length
    migratedCount := normalized.length
    normalizedProjects := normalized
    imageMappings := audioImageMappingsGo normalized rawProjects }

/-- The update branch of `migrateAudioProjects` (drizzle against D1):
writes status, type, title, featuredImage, featuredImages, content and
modified. -/
def applyAudioUpdate (p : AudioProject) (r : StoredRow) : StoredRow :=
  { r with
    status := p.status
    type := p.type
    title := p.title
    featuredImage := p.featuredImage
    featuredImages := p.featuredImages
    content := p.content
    modified := p.modified }

/-- The update branch of the local sql.js script
(`src/scripts/migrate-audio-projects.ts` main loop): writes status, type,
title, featuredImage, featuredImages and content — but not `modified`. -/
def applyAudioLocalUpdate (p : AudioProject) (r : StoredRow) : StoredRow :=
  { r with
    status := p.status
    type := p.type
    title := p.title
    featuredImage := p.featuredImage
    featuredImages := p.featuredImages
    content := p.content }

/-! ### SQL-script migration path (`src/scripts/migrate-content.ts`) -/

/-- `sqlString(value)` restricted to the string/null values this pipeline
feeds it. -/
def sqlString (value : Option String) : String :=
  match value with
  | none => "NULL"
  | some s =>
    String.singleton quoteChar ++
      jsReplaceAll (String.singleton quoteChar)
        (String.singleton quoteChar ++ String.singleton quoteChar) s ++
      String.singleton quoteChar

/-- JSON string escaping as `JSON.stringify` performs it on one string. -/
def jsonEscapeChar (c : Char) : List Char :=
  if c = '"' then ['\\', '"']
  else if c = '\\' then ['\\', '\\']
  else if c = Char.ofNat 10 then ['\\', 'n']
  else if c = Char.ofNat 13 then ['\\', 'r']
  else if c = Char.ofNat 9 then ['\\', 't']
  else if c = Char.ofNat 8 then ['\\', 'b']
  else if c = Char.ofNat 12 then ['\\', 'f']
  else if c.toNat < 32 then
    ['\\', 'u', '0', '0',
      (Nat.digitChar (c.toNat / 16)), (Nat.digitChar (c.toNat % 16))]
  else [c]

def jsonQuote (s : String) : String :=
  "\"" ++ ⟨s.toList.flatMap jsonEscapeChar⟩ ++ "\""

/-- `JSON.stringify` of a string array. -/
def jsonStringifyList (l : List String) : String :=
  "[" ++ String.intercalate "," (l.map jsonQuote) ++ "]"

/-- The `updateAssignments` list built by `buildUpsertStatement`. -/
def updateAssignsFor (extraColumns : List ExtraColumn) : List String :=
  ["status = excluded.status",
   "type = excluded.type",
   "title = excluded.title",
   "featuredImage = excluded.featuredImage",
   "featuredImages = excluded.featuredImages",
   "modified = excluded.modified"] ++
  extraColumns.map (fun c => extraName c ++ " = excluded." ++ extraName c)

/-- `buildUpsertStatement(tableName, project, extraColumns)`. -/
def buildUpsertStatement (tableName : String) (p : NormalizedContent)
    (extraColumns : List ExtraColumn) : String :=
  let baseColumns :=
    ["slug", "status", "type", "title", "featuredImage", "featuredImages",
     "created", "modified"] ++ extraColumns.map extraName
  let baseValues :=
    [sqlString (some p.slug), sqlString (some p.status), sqlString (some p.type),
     sqlString (some p.title), sqlString p.featuredImage,
     sqlString (p.featuredImages.map jsonStringifyList),
     sqlString (some p.created), sqlString (some p.modified)] ++
    extraColumns.map (fun c => sqlString (getExtra p c))
  String.intercalate "\n"
    ["INSERT INTO " ++ tableName ++ " (",
     "  " ++ String.intercalate ", " baseColumns,
     ") VALUES (",
     "  " ++ String.intercalate ", " baseValues,
     ") ON CONFLICT(slug) DO UPDATE SET",
     "  " ++ String.intercalate ",\n  " (updateAssignsFor extraColumns) ++ ";"]

/-- The per-content-set loop of `prepareSqlForContentSet`: de-duplicate on
first-seen slug, classify against the pre-fetched existing slug set, and
emit one upsert statement per processed row.  Returns (statements,
inserted, updated). -/
def prepareGo (tableName : String) (extraColumns : List ExtraColumn)
    (existing : List String) (seen : List String) :
    List NormalizedContent → List String × Nat × Nat
  | [] => ([], 0, 0)
  | p :: ps =>
    if p.slug ∈ seen then
      prepareGo tableName extraColumns existing seen ps
    else
      let rest := prepareGo tableName extraColumns existing (p.slug :: seen) ps
      (buildUpsertStatement tableName p extraColumns :: rest.1,
       (if p.slug ∈ existing then rest.2.1 else rest.2.1 + 1),
       (if p.slug ∈ existing then rest.2.2 + 1 else rest.2.2))

/-- `prepareSqlForContentSet` counts and statements, as a function of the
existing-slug set returned by the chunked existence queries. -/
def prepareSqlForContentSet (tableName : String)
    (extraColumns : List ExtraColumn) (existing : List String)
    (projects : List NormalizedContent) : List String × Nat × Nat :=
  prepareGo tableName extraColumns existing [] projects

/-- First-occurrence de-duplication of rows by slug (relative to an
already-seen slug list). -/
def dedupFirstS (seen : List String) :
    List NormalizedContent → List NormalizedContent
  | [] => []
  | p :: ps =>
    if p.slug ∈ seen then dedupFirstS seen ps
    else p :: dedupFirstS (p.slug :: seen) ps

/-- First occurrences of a string list (the distinct values, in first-seen
order). -/
def firstOccur (seen : List String) : List String → List String
  | [] => []
  | s :: ss =>
    if s ∈ seen then firstOccur seen ss
    else s :: firstOccur (s :: seen) ss

/-! ### Image migration engine (`scripts/migrate-audio-project-images.ts`,
multi-source version) -/

structure WPEntry where
  featuredImage : Option String := none
  featuredImages : Option (List (Option String)) := none
deriving DecidableEq, Repr

/-- `extractFilename(url)` of the image engine: last path segment, must be
non-empty and not whitespace-only, then percent-decoded. -/
def extractFilename (url : String) : Except JsThrow String :=
  match jsURL url with
  | none => .error (.typeError ("Invalid URL: " ++ url))
  | some u =>
    let filename := lastSeg u.pathname
    if filename = "" ∨ jsTrim filename = "" then
      .error (.jsError ("Unable to determine filename from URL: " ++ url))
    else
      match decodeURIComponentM filename with
      | .error m => .error (.uriError m)
      | .ok s => .ok s

/-- `determineContentType(filename)`. -/
def determineContentType (filename : String) : Option String :=
  let ext := lastDotSeg (jsToLower filename)
  if ext = "jpg" ∨ ext = "jpeg" then some "image/jpeg"
  else if ext = "png" then some "image/png"
  else if ext = "gif" then some "image/gif"
  else if ext = "webp" then some "image/webp"
  else if ext = "svg" then some "image/svg+xml"
  else none

/-- `collectImageUrls(entries)`: unique truthy URLs in first-seen order. -/
def collectImageUrls (entries : List WPEntry) : List String :=
  let addUrl : List String → Option String → List String := fun acc u =>
    match u with
    | some s => if s ≠ "" ∧ s ∉ acc then acc ++ [s] else acc
    | none => acc
  entries.foldl
    (fun acc e =>
      (e.featuredImages.getD []).foldl addUrl (addUrl acc e.featuredImage))
    []

structure ImageResult where
  source : String
  sourceUrl : String
  targetKey : String
  r2Url : Option String
deriving DecidableEq, Repr

/-- Run-scoped state of the image engine: the uploaded-key set, the
download cache, the logs of performed downloads/uploads (with declared
content type), and the accumulated mapping results. -/
structure EngineState where
  uploadedKeys : List String
  downloadCache : List (String × List Nat)
  downloads : List String
  uploads : List (String × Option String)
  results : List ImageResult
deriving DecidableEq, Repr

def emptyEngineState : EngineState := ⟨[], [], [], [], []⟩

/-- The state after the download-cache update, the conditional upload and
the result append of one loop iteration, given the already-determined new
cache and download log. -/
def engineAfter (srcKey folder : String) (publicBase : Option String)
    (st : EngineState) (cache1 : List (String × List Nat))
    (downloads1 : List String) (url filename : String) : EngineState :=
  let key := folder ++ "/" ++ filename
  let st1 : EngineState :=
    { st with downloadCache := cache1, downloads := downloads1 }
  let st2 :=
    if key ∈ st1.uploadedKeys then st1
    else
      { st1 with
        uploads := st1.uploads ++ [(key, determineContentType filename)]
        uploadedKeys := st1.uploadedKeys ++ [key] }
  { st2 with
    results := st2.results ++
      [{ source := srcKey
         sourceUrl := url
         targetKey := key
         r2Url := publicBase.map (fun b => b ++ "/" ++ key) }] }

/-- One iteration of the per-image loop in `migrate()`.  `dl` is the
download oracle (the bytes the remote host serves for a URL); downloads
and uploads themselves are modelled as succeeding. -/
def processImage (srcKey folder : String) (publicBase : Option String)
    (dl : String → List Nat) (st : EngineState) (url : String) :
    Except JsThrow EngineState :=
  match extractFilename url with
  | .error e => .error e
  | .ok filename =>
    match (if (st.downloadCache.lookup url).isSome then st.downloadCache
           else st.downloadCache ++ [(url, dl url)]).lookup url with
    | none => .error (.jsError ("Unexpected missing image buffer for " ++ url))
    | some _ =>
      .ok (engineAfter srcKey folder publicBase st
        (if (st.downloadCache.lookup url).isSome then st.downloadCache
         else st.downloadCache ++ [(url, dl url)])
        (if (st.downloadCache.lookup url).isSome then st.downloads
         else st.downloads ++ [url]) url filename)

/-- The image queue loop: process URLs in order, stopping at the first
thrown error; the state reached so far (downloads, uploads) persists. -/
def processQueue (srcKey folder : String) (publicBase : Option String)
    (dl : String → List Nat) :
    List String → EngineState → EngineState × Option JsThrow
  | [], st => (st, none)
  | url :: rest, st =>
    match processImage srcKey folder publicBase dl st url with
    | .error e => (st, some e)
    | .ok st1 => processQueue srcKey folder publicBase dl rest st1

/-- `fetchContent(endpoint, sourceKey)` of the image engine as a function
of the HTTP response: non-ok status and non-array payloads both throw. -/
def fetchContentM (sourceKey : String) (resp : JsResponse WPEntry) :
    Except JsThrow (List WPEntry) :=
  if resp.ok = false then
    .error (.jsError
      ("Failed to fetch " ++ sourceKey ++ " content (" ++ toString resp.status ++
        " " ++ resp.statusText ++ ")"))
  else
    match resp.body with
    | .list records => .ok records
    | .nonList =>
      .error (.jsError ("Unexpected payload for " ++ sourceKey ++ ": not an array"))

/-! ### Helper lemmas -/

theorem isPrefixOf_append_self {l m : List Char} : l.isPrefixOf (l ++ m) = true := by
  induction l with
  | nil => simp [List.isPrefixOf]
  | cons a l ih => simp [List.isPrefixOf, ih]

theorem jsStartsWith_append (p m : String) : jsStartsWith (p ++ m) p = true := by
  unfold jsStartsWith
  have h : (p ++ m).toList = p.toList ++ m.toList := String.data_append p m
  rw [h]
  exact isPrefixOf_append_self

theorem targetBaseOf_length (f : String) :
    (targetBaseOf f).length = 26 + f.length := by
  have h1 : (R2_BASE_URL).length = 24 := rfl
  have h2 : ("/" : String).length = 1 := rfl
  simp [targetBaseOf, String.length_append, h1, h2]
  omega

theorem append_targetBase_ne_empty (f m : String) :
    targetBaseOf f ++ m ≠ "" := by
  intro h
  have hlen : (targetBaseOf f ++ m).length = 0 := by rw [h]; rfl
  rw [String.length_append, targetBaseOf_length] at hlen
  omega

theorem jsStartsWith_empty_false (p : String) (h : p.length ≠ 0) :
    jsStartsWith "" p = false := by
  unfold jsStartsWith
  rcases hl : p.toList with _ | ⟨c, cs⟩
  · exfalso
    apply h
    have hd : p.data = [] := hl
    show p.data.length = 0
    rw [hd]
    rfl
  · rfl

theorem convertImageUrl_of_startsWith (v folder : String)
    (h : jsStartsWith v (targetBaseOf folder) = true) :
    convertImageUrl (some v) folder = some v := by
  have hv : v ≠ "" := by
    rintro rfl
    rw [jsStartsWith_empty_false (targetBaseOf folder)] at h
    · cases h
    · rw [targetBaseOf_length]; omega
  simp only [convertImageUrl]
  rw [if_neg hv, if_pos h]

/-- Claim C3: URL rewriting is idempotent — a URL already under
`<targetBase>/<folder>/` is returned unchanged, and for every input
(including null and unparseable strings) rewriting twice equals rewriting
once. -/
theorem c3_convertImageUrl_idempotent :
    (∀ (v folder : String), jsStartsWith v (targetBaseOf folder) = true →
      convertImageUrl (some v) folder = some v) ∧
    (∀ (u : Option String) (folder : String),
      convertImageUrl (convertImageUrl u folder) folder =
        convertImageUrl u folder) := by
  refine ⟨convertImageUrl_of_startsWith, ?_⟩
  intro u folder
  match u with
  | none => rfl
  | some v =>
    by_cases hv : v = ""
    · subst hv
      simp [convertImageUrl]
    · by_cases hsw : jsStartsWith v (targetBaseOf folder) = true
      · rw [convertImageUrl_of_startsWith v folder hsw,
          convertImageUrl_of_startsWith v folder hsw]
      · have hinner : convertImageUrl (some v) folder =
            match jsURL v with
            | none => none
            | some uu =>
              if lastSeg uu.pathname = "" then none
              else some (targetBaseOf folder ++ lastSeg uu.pathname) := by
          simp only [convertImageUrl]
          rw [if_neg hv, if_neg hsw]
        match hurl : jsURL v with
        | none =>
          rw [hinner, hurl]
          rfl
        | some uu =>
          rw [hinner, hurl]
          show convertImageUrl
              (if lastSeg uu.pathname = "" then none
               else some (targetBaseOf folder ++ lastSeg uu.pathname)) folder =
            (if lastSeg uu.pathname = "" then none
             else some (targetBaseOf folder ++ lastSeg uu.pathname))
          by_cases hf : lastSeg uu.pathname = ""
          · rw [if_pos hf]
            rfl
          · rw [if_neg hf]
            exact convertImageUrl_of_startsWith _ folder
              (jsStartsWith_append (targetBaseOf folder) (lastSeg uu.pathname))

/-- Witness for C3 at concrete inputs. -/
theorem c3_witness :
    convertImageUrl (some "https://images.labcat.nz/audio-projects/pic.webp")
        "audio-projects" =
      some "https://images.labcat.nz/audio-projects/pic.webp" ∧
    convertImageUrl
        (convertImageUrl (some "https://old.example.com/media/pic.webp")
          "audio-projects") "audio-projects" =
      convertImageUrl (some "https://old.example.com/media/pic.webp")
        "audio-projects" :=
  ⟨c3_convertImageUrl_idempotent.1 _ "audio-projects" (by decide),
   c3_convertImageUrl_idempotent.2
     (some "https://old.example.com/media/pic.webp") "audio-projects"⟩

/-- Claim C4 (amended): for every parseable URL not already under the
target prefix whose path has a non-empty final segment, the rewriter
returns exactly `<targetBase>/<folder>/<filename>` where `filename` is the
final path segment exactly as it appears in the URL's (percent-encoded)
path — percent-escapes are preserved, not decoded. -/
theorem c4_convertImageUrl_output_form (v folder : String) (u : JsURL)
    (hparse : jsURL v = some u)
    (hsw : jsStartsWith v (targetBaseOf folder) = false)
    (hseg : lastSeg u.pathname ≠ "") :
    convertImageUrl (some v) folder =
      some (targetBaseOf folder ++ lastSeg u.pathname) := by
  have hv : v ≠ "" := by
    rintro rfl
    rw [show jsURL "" = none from rfl] at hparse
    cases hparse
  simp only [convertImageUrl]
  rw [if_neg hv, if_neg (by rw [hsw]; exact Bool.false_ne_true), hparse]
  show (if lastSeg u.pathname = "" then none
        else some (targetBaseOf folder ++ lastSeg u.pathname)) =
    some (targetBaseOf folder ++ lastSeg u.pathname)
  rw [if_neg hseg]

/-- Witness for C4's amended theorem at a concrete input. -/
theorem c4_witness :
    convertImageUrl (some "https://old.example.com/media/pic.webp")
        "audio-projects" =
      some (targetBaseOf "audio-projects" ++
        lastSeg (JsURL.mk "https" "old.example.com" "/media/pic.webp" "").pathname) :=
  c4_convertImageUrl_output_form "https://old.example.com/media/pic.webp"
    "audio-projects" ⟨"https", "old.example.com", "/media/pic.webp", ""⟩
    (by decide) (by decide) (by decide)

/-- Counterexample to C4 as stated: the rewriter does not percent-decode
the final path segment.  For `https://old.example.com/media/my%20pic.webp`
the decoded final segment is `my pic.webp`, but the rewriter emits the
still-encoded `my%20pic.webp`. -/
theorem c4_counterexample :
    convertImageUrl (some "https://old.example.com/media/my%20pic.webp")
        "audio-projects" =
      some "https://images.labcat.nz/audio-projects/my%20pic.webp" ∧
    decodeURIComponentM "my%20pic.webp" = .ok "my pic.webp" ∧
    convertImageUrl (some "https://old.example.com/media/my%20pic.webp")
        "audio-projects" ≠
      some (targetBaseOf "audio-projects" ++ "my pic.webp") := by
  refine ⟨by decide, by decide, by decide⟩

/-- Claim C6: title normalisation strips HTML tags first, then decodes
numeric (decimal and hex) character references and the five named
entities in that order, then trims; in particular
`normalizeTitle "<b>Foo &amp; Bar</b>" = "Foo & Bar"`. -/
theorem c6_title_normalization :
    (∀ s : String,
      normalizeTitle s =
        jsTrim
          (jsReplaceAll "&apos;" (String.singleton quoteChar)
            (jsReplaceAll "&quot;" "\""
              (jsReplaceAll "&gt;" ">"
                (jsReplaceAll "&lt;" "<"
                  (jsReplaceAll "&amp;" "&"
                    ⟨decHexL (decDecL (stripHtml s).toList)⟩)))))) ∧
    normalizeTitle "<b>Foo &amp; Bar</b>" = "Foo & Bar" :=
  ⟨fun _ => rfl, by decide⟩

/-- Claim C10: normalization maps each raw record to exactly one
normalized record, so every fetch result reports `migratedCount` equal to
`sourceCount` (for the bulk fetcher and the single-type audio fetcher
alike). -/
theorem c10_source_count_equals_migrated_count :
    (∀ (config : ContentConfig) (now : String) (raws : List WordPressBase),
      (fetchPure config now raws).migratedCount =
        (fetchPure config now raws).sourceCount ∧
      (fetchPure config now raws).normalizedProjects.length = raws.length) ∧
    (∀ (now : String) (raws : List WPAudioProject),
      (fetchAudioPure now raws).migratedCount =
        (fetchAudioPure now raws).sourceCount ∧
      (fetchAudioPure now raws).normalizedProjects.length = raws.length) := by
  refine ⟨fun config now raws => ⟨?_, ?_⟩, fun now raws => ⟨?_, ?_⟩⟩ <;>
    simp [fetchPure, fetchAudioPure]

/-- Claim C5: fetching a content set hard-fails on a non-success HTTP
status with a tagged error carrying the status code and reason text, and
hard-fails on a response body that is not a list of records; in both
cases an error is thrown and no (partial) result is returned.  This holds
for the shared-library fetcher (`MigrationError` / `TypeError`) and for
the image-engine fetcher (plain `Error`s). -/
theorem c5_fetch_failure_modes
    (config : ContentConfig) (now : String) (sourceKey : String)
    (resp : JsResponse WordPressBase) (respI : JsResponse WPEntry) :
    (resp.ok = false →
      fetchNormalizedContentE config now resp =
        .error (.migrationError
          ("Failed to fetch " ++ config.type ++ ": " ++ toString resp.status ++
            " " ++ resp.statusText))) ∧
    (resp.ok = true → resp.body = .nonList →
      fetchNormalizedContentE config now resp =
        .error (.typeError "rawProjects.map is not a function")) ∧
    (respI.ok = false →
      fetchContentM sourceKey respI =
        .error (.jsError
          ("Failed to fetch " ++ sourceKey ++ " content (" ++
            toString respI.status ++ " " ++ respI.statusText ++ ")"))) ∧
    (respI.ok = true → respI.body = .nonList →
      fetchContentM sourceKey respI =
        .error (.jsError
          ("Unexpected payload for " ++ sourceKey ++ ": not an array"))) := by
  refine ⟨?_, ?_, ?_, ?_⟩
  · intro hok
    simp [fetchNormalizedContentE, hok]
  · intro hok hbody
    simp [fetchNormalizedContentE, hok, hbody]
  · intro hok
    simp [fetchContentM, hok]
  · intro hok hbody
    simp [fetchContentM, hok, hbody]

/-- Witness for C5 at a concrete 404 response and a concrete non-list
body. -/
theorem c5_witness :
    (fetchNormalizedContentE audioProjectsConfig "2024-01-01T00:00:00.000Z"
        ⟨false, 404, "Not Found", .list []⟩ =
      .error (.migrationError
        "Failed to fetch audio-projects: 404 Not Found") ∧
     fetchContentM "audio-projects" ⟨true, 200, "OK", .nonList⟩ =
      .error (.jsError "Unexpected payload for audio-projects: not an array")) := by
  constructor
  · have h := (c5_fetch_failure_modes audioProjectsConfig
      "2024-01-01T00:00:00.000Z" "audio-projects"
      ⟨false, 404, "Not Found", .list []⟩ ⟨true, 200, "OK", .nonList⟩).1 rfl
    simpa [audioProjectsConfig] using h
  · exact (c5_fetch_failure_modes audioProjectsConfig
      "2024-01-01T00:00:00.000Z" "audio-projects"
      ⟨false, 404, "Not Found", .list []⟩ ⟨true, 200, "OK", .nonList⟩).2.2.2 rfl rfl

theorem extractFeaturedImage_ne_empty (src : WordPressBase) (s : String)
    (h : extractFeaturedImage src = some s) : s ≠ "" := by
  unfold extractFeaturedImage at h
  rcases hc : src.featuredImage <|> src.featured_image <|> src.featured_media_url with
    _ | t
  · rw [hc] at h; cases h
  · have h2 : (if t.length > 0 then some t else none) = some s := by
      rw [hc] at h
      exact h
    by_cases hl : t.length > 0
    · rw [if_pos hl] at h2
      cases h2
      intro he
      rw [he] at hl
      exact absurd hl (by decide)
    · rw [if_neg hl] at h2
      cases h2

theorem extractFeaturedImages_mem_ne_empty (src : WordPressBase)
    (l : List String) (s : String)
    (h : extractFeaturedImages src = some l) (hm : s ∈ l) : s ≠ "" := by
  unfold extractFeaturedImages at h
  rcases hc : src.featuredImages <|> src.featured_images <|> src.gallery_images with
    _ | t
  · rw [hc] at h; cases h
  · have h2 : (if t.length = 0 then none
        else some (t.filter (fun s => s.length > 0))) = some l := by
      rw [hc] at h
      exact h
    by_cases hl : t.length = 0
    · rw [if_pos hl] at h2; cases h2
    · rw [if_neg hl] at h2
      cases h2
      have := (List.mem_filter.mp hm).2
      intro he
      rw [he] at this
      exact absurd this (by decide)

theorem mapLoop_length (srcl tgt : List String)
    (hs : ∀ s ∈ srcl, s ≠ "") (ht : ∀ t ∈ tgt, t ≠ "") :
    (mapLoop srcl tgt).length = min srcl.length tgt.length := by
  induction srcl generalizing tgt with
  | nil => cases tgt <;> simp [mapLoop]
  | cons s ss ih =>
    cases tgt with
    | nil => simp [mapLoop]
    | cons t ts =>
      have hsne : s ≠ "" := hs s (by simp)
      have htne : t ≠ "" := ht t (by simp)
      have ihh := ih ts (fun x hx => hs x (by simp [hx]))
        (fun x hx => ht x (by simp [hx]))
      simp [mapLoop, hsne, htne, ihh]
      omega

theorem createImageMappingsGo_length
    (norm : List NormalizedContent) (raw : List WordPressBase) :
    (createImageMappingsGo norm raw).length =
      ((norm.zip raw).map (fun x => (pairMappings x.2 x.1).length)).sum := by
  induction norm generalizing raw with
  | nil => simp [createImageMappingsGo]
  | cons p ps ih =>
    cases raw with
    | nil => simp [createImageMappingsGo]
    | cons r rs => simp [createImageMappingsGo, ih rs]

/-- Claim C7: per record pair, the mapping collector emits one entry for
the single `featuredImage` exactly when both the raw source and the
normalized target are non-null, plus one entry per positional pair of the
first `min(len(sources), len(targets))` `featuredImages` entries (all of
which are non-null for normalizer-produced values); and the batch total
is the sum of the per-index counts.  In particular a record with a
rewritten `featuredImage` and 3 raw `featuredImages` of which 2 rewrote
contributes 1 + min 3 2 = 3 mappings. -/
theorem c7_image_mapping_cardinality :
    (∀ (src : WordPressBase) (p : NormalizedContent),
      p.featuredImage ≠ some "" →
      (∀ t ∈ p.featuredImages.getD [], t ≠ "") →
      (pairMappings src p).length =
        (if (extractFeaturedImage src).isSome ∧ p.featuredImage.isSome
         then 1 else 0) +
        (match extractFeaturedImages src, p.featuredImages with
         | some srcl, some tgt => min srcl.length tgt.length
         | _, _ => 0)) ∧
    (∀ (raw : List WordPressBase) (norm : List NormalizedContent),
      (createImageMappings raw norm).length =
        ((norm.zip raw).map (fun x => (pairMappings x.2 x.1).length)).sum) := by
  constructor
  · intro src p h1 h2
    unfold pairMappings
    rw [List.length_append]
    congr 1
    · rcases hpf : p.featuredImage with _ | t <;>
        rcases hef : extractFeaturedImage src with _ | s
      · simp
      · simp
      · simp [hef]
      · have hts : t ≠ "" := by
          intro he
          rw [he] at hpf
          exact h1 hpf
        have hss := extractFeaturedImage_ne_empty src s hef
        simp [hts, hss]
    · rcases hpfs : p.featuredImages with _ | tgt <;>
        rcases hefs : extractFeaturedImages src with _ | srcl
      · simp
      · simp
      · simp [hefs]
      · have htgt : ∀ t ∈ tgt, t ≠ "" := by
          intro t ht
          exact h2 t (by rw [hpfs]; exact ht)
        have hsrc : ∀ s ∈ srcl, s ≠ "" :=
          fun s hs => extractFeaturedImages_mem_ne_empty src srcl s hefs hs
        simp only
        exact mapLoop_length srcl tgt hsrc htgt
  · intro raw norm
    exact createImageMappingsGo_length norm raw

/-- Concrete raw record with one `featuredImage` and three
`featuredImages`, for the C7 witness. -/
def c7SrcExample : WordPressBase :=
  { slug := "a"
    status := "publish"
    type := "post"
    titleRendered := "A"
    featuredImage := some "https://old.example.com/media/f.webp"
    featuredImages := some
      ["https://old.example.com/media/1.webp",
       "https://old.example.com/media/2.webp",
       "https://old.example.com/media/3.webp"] }

/-- Concrete normalized record whose `featuredImage` rewrote and whose
three `featuredImages` yielded two rewritten entries. -/
def c7NormExample : NormalizedContent :=
  { slug := "a"
    status := "publish"
    type := "post"
    title := "A"
    featuredImage := some "https://images.labcat.nz/pages/f.webp"
    featuredImages := some
      ["https://images.labcat.nz/pages/1.webp",
       "https://images.labcat.nz/pages/2.webp"]
    created := "2024-01-01T00:00:00.000Z"
    modified := "2024-01-01T00:00:00.000Z" }

/-- Witness for C7: the example record contributes exactly 1 + min 3 2 = 3
mappings. -/
theorem c7_witness : (pairMappings c7SrcExample c7NormExample).length = 3 :=
  ((c7_image_mapping_cardinality.1 c7SrcExample c7NormExample
    (by decide) (by decide)).trans (by decide))

theorem prepareGo_spec (tbl : String) (cols : List ExtraColumn)
    (existing : List String) :
    ∀ (ps : List NormalizedContent) (seen : List String),
      prepareGo tbl cols existing seen ps =
        ((dedupFirstS seen ps).map (fun p => buildUpsertStatement tbl p cols),
         (dedupFirstS seen ps).countP (fun p => decide (p.slug ∉ existing)),
         (dedupFirstS seen ps).countP (fun p => decide (p.slug ∈ existing))) := by
  intro ps
  induction ps with
  | nil => intro seen; rfl
  | cons p ps ih =>
    intro seen
    by_cases hseen : p.slug ∈ seen
    · simp only [prepareGo, dedupFirstS, if_pos hseen]
      exact ih seen
    · simp only [prepareGo, dedupFirstS, if_neg hseen, ih (p.slug :: seen)]
      by_cases hex : p.slug ∈ existing
      · simp [List.countP_cons, hex]
      · simp [List.countP_cons, hex]

theorem dedupFirstS_map_slug :
    ∀ (ps : List NormalizedContent) (seen : List String),
      (dedupFirstS seen ps).map NormalizedContent.slug =
        firstOccur seen (ps.map NormalizedContent.slug) := by
  intro ps
  induction ps with
  | nil => intro seen; rfl
  | cons p ps ih =>
    intro seen
    by_cases hseen : p.slug ∈ seen
    · simp only [dedupFirstS, List.map_cons, firstOccur, if_pos hseen]
      exact ih seen
    · simp only [dedupFirstS, List.map_cons, firstOccur, if_neg hseen]
      rw [ih (p.slug :: seen)]

theorem firstOccur_mem :
    ∀ (l seen : List String) (s : String),
      s ∈ firstOccur seen l ↔ (s ∈ l ∧ s ∉ seen) := by
  intro l
  induction l with
  | nil => intro seen s; simp [firstOccur]
  | cons a l ih =>
    intro seen s
    by_cases ha : a ∈ seen
    · rw [firstOccur, if_pos ha, ih]
      constructor
      · rintro ⟨hs, hns⟩
        exact ⟨List.mem_cons_of_mem a hs, hns⟩
      · rintro ⟨hs, hns⟩
        rcases List.mem_cons.mp hs with rfl | hs
        · exact absurd ha hns
        · exact ⟨hs, hns⟩
    · rw [firstOccur, if_neg ha]
      constructor
      · intro hmem
        rcases List.mem_cons.mp hmem with rfl | hmem
        · exact ⟨List.mem_cons_self _ _, ha⟩
        · rcases (ih (a :: seen) s).mp hmem with ⟨hs, hns⟩
          exact ⟨List.mem_cons_of_mem a hs,
            fun hcon => hns (List.mem_cons_of_mem a hcon)⟩
      · rintro ⟨hs, hns⟩
        rcases List.mem_cons.mp hs with rfl | hs
        · exact List.mem_cons_self _ _
        · by_cases hsa : s = a
          · subst hsa; exact List.mem_cons_self _ _
          · refine List.mem_cons_of_mem a ((ih (a :: seen) s).mpr ⟨hs, ?_⟩)
            intro hcon
            rcases List.mem_cons.mp hcon with h | h
            · exact hsa h
            · exact hns h

theorem firstOccur_nodup :
    ∀ (l seen : List String), (firstOccur seen l).Nodup := by
  intro l
  induction l with
  | nil => intro seen; simp [firstOccur]
  | cons a l ih =>
    intro seen
    by_cases ha : a ∈ seen
    · rw [firstOccur, if_pos ha]
      exact ih seen
    · rw [firstOccur, if_neg ha]
      refine List.nodup_cons.mpr ⟨?_, ih (a :: seen)⟩
      intro hcon
      exact ((firstOccur_mem l (a :: seen) a).mp hcon).2 (List.mem_cons_self _ _)

theorem firstOccur_length_eq_dedup (l : List String) :
    (firstOccur [] l).length = l.dedup.length := by
  refine List.Perm.length_eq ?_
  refine (List.perm_ext_iff_of_nodup (firstOccur_nodup l []) l.nodup_dedup).mpr ?_
  intro s
  rw [firstOccur_mem, List.mem_dedup]
  simp

theorem upsertGo_total (extras : List ExtraColumn) :
    ∀ (ps : List NormalizedContent) (table : List StoredRow)
      (nid ins upd : Nat),
      (upsertGo extras ps table nid ins upd).inserted +
        (upsertGo extras ps table nid ins upd).updated = ins + upd + ps.length := by
  intro ps
  induction ps with
  | nil => intro table nid ins upd; simp [upsertGo]
  | cons p ps ih =>
    intro table nid ins upd
    rcases hfind : table.find? (fun r => r.slug == p.slug) with _ | r
    · simp only [upsertGo, hfind]
      rw [ih]
      simp
      omega
    · simp only [upsertGo, hfind]
      rw [ih]
      simp
      omega

/-- Claim C2 (amended): the SQL-script migration path
(`prepareSqlForContentSet`) de-duplicates by first-seen slug before
persistence — it emits exactly one upsert statement per distinct slug, for
the first occurrence of each, and its `inserted + updated` equals the
number of distinct slugs in the batch.  The drizzle `upsertContent` engine
performs no such de-duplication: it processes every row, so its
`inserted + updated` always equals the raw record count. -/
theorem c2_sql_path_dedups_upsertContent_does_not :
    (∀ (tbl : String) (cols : List ExtraColumn) (existing : List String)
        (ps : List NormalizedContent),
      (prepareSqlForContentSet tbl cols existing ps).1 =
        (dedupFirstS [] ps).map (fun p => buildUpsertStatement tbl p cols) ∧
      (dedupFirstS [] ps).map NormalizedContent.slug =
        firstOccur [] (ps.map NormalizedContent.slug) ∧
      (prepareSqlForContentSet tbl cols existing ps).2.1 +
          (prepareSqlForContentSet tbl cols existing ps).2.2 =
        (ps.map NormalizedContent.slug).dedup.length) ∧
    (∀ (table : List StoredRow) (nid : Nat) (ps : List NormalizedContent)
        (extras : List ExtraColumn),
      (upsertContent table nid ps extras).inserted +
        (upsertContent table nid ps extras).updated = ps.length) := by
  constructor
  · intro tbl cols existing ps
    refine ⟨?_, dedupFirstS_map_slug ps [], ?_⟩
    · rw [show prepareSqlForContentSet tbl cols existing ps =
          prepareGo tbl cols existing [] ps from rfl,
        prepareGo_spec]
    · rw [show prepareSqlForContentSet tbl cols existing ps =
          prepareGo tbl cols existing [] ps from rfl,
        prepareGo_spec]
      have hsplit :
          (dedupFirstS [] ps).countP (fun p => decide (p.slug ∉ existing)) +
            (dedupFirstS [] ps).countP (fun p => decide (p.slug ∈ existing)) =
          (dedupFirstS [] ps).length := by
        have h := List.length_eq_countP_add_countP
          (p := fun p : NormalizedContent => decide (p.slug ∈ existing))
          (dedupFirstS [] ps)
        simp at h ⊢
        omega
      rw [hsplit]
      rw [← firstOccur_length_eq_dedup, ← dedupFirstS_map_slug, List.length_map]
  · intro table nid ps extras
    have h := upsertGo_total extras ps table nid 0 0
    simpa [upsertContent] using h

/-- Two rows sharing the slug `a` (differing elsewhere), for the C2
counterexample. -/
def c2RowA : NormalizedContent :=
  { slug := "a"
    status := "publish"
    type := "post"
    title := "first"
    featuredImage := none
    featuredImages := none
    created := "2024-01-01T00:00:00.000Z"
    modified := "2024-01-01T00:00:00.000Z" }

def c2RowB : NormalizedContent :=
  { slug := "a"
    status := "publish"
    type := "post"
    title := "second"
    featuredImage := none
    featuredImages := none
    created := "2024-01-02T00:00:00.000Z"
    modified := "2024-01-02T00:00:00.000Z" }

/-- Counterexample to C2 as stated: on the batch `[c2RowA, c2RowB]` (one
distinct slug) against an empty collection, the drizzle Upsert Engine
processes both rows — the duplicate is not discarded — and returns
`inserted + updated = 2`, not the distinct-slug count 1. -/
theorem c2_counterexample :
    (upsertContent [] 1 [c2RowA, c2RowB] []).inserted = 1 ∧
    (upsertContent [] 1 [c2RowA, c2RowB] []).updated = 1 ∧
    ([c2RowA, c2RowB].map NormalizedContent.slug).dedup.length = 1 ∧
    (upsertContent [] 1 [c2RowA, c2RowB] []).inserted +
        (upsertContent [] 1 [c2RowA, c2RowB] []).updated ≠ 1 := by
  refine ⟨by decide, by decide, by decide, by decide⟩

theorem getExtraS_setExtraS_same (r : StoredRow) (c : ExtraColumn)
    (v : Option String) : getExtraS (setExtraS r c v) c = v := by
  cases c <;> rfl

theorem getExtraS_setExtraS_ne (r : StoredRow) (c d : ExtraColumn)
    (v : Option String) (h : d ≠ c) :
    getExtraS (setExtraS r c v) d = getExtraS r d := by
  cases c <;> cases d <;> first | rfl | exact absurd rfl h

theorem setExtraS_base (r : StoredRow) (c : ExtraColumn) (v : Option String) :
    (setExtraS r c v).slug = r.slug ∧ (setExtraS r c v).id = r.id ∧
    (setExtraS r c v).created = r.created ∧
    (setExtraS r c v).status = r.status ∧ (setExtraS r c v).type = r.type ∧
    (setExtraS r c v).title = r.title ∧
    (setExtraS r c v).featuredImage = r.featuredImage ∧
    (setExtraS r c v).featuredImages = r.featuredImages ∧
    (setExtraS r c v).modified = r.modified := by
  cases c <;> exact ⟨rfl, rfl, rfl, rfl, rfl, rfl, rfl, rfl, rfl⟩

theorem foldExtras_base (l : List (ExtraColumn × Option String)) :
    ∀ r : StoredRow,
      (l.foldl (fun acc cv => setExtraS acc cv.1 cv.2) r).slug = r.slug ∧
      (l.foldl (fun acc cv => setExtraS acc cv.1 cv.2) r).id = r.id ∧
      (l.foldl (fun acc cv => setExtraS acc cv.1 cv.2) r).created = r.created ∧
      (l.foldl (fun acc cv => setExtraS acc cv.1 cv.2) r).status = r.status ∧
      (l.foldl (fun acc cv => setExtraS acc cv.1 cv.2) r).type = r.type ∧
      (l.foldl (fun acc cv => setExtraS acc cv.1 cv.2) r).title = r.title ∧
      (l.foldl (fun acc cv => setExtraS acc cv.1 cv.2) r).featuredImage =
        r.featuredImage ∧
      (l.foldl (fun acc cv => setExtraS acc cv.1 cv.2) r).featuredImages =
        r.featuredImages ∧
      (l.foldl (fun acc cv => setExtraS acc cv.1 cv.2) r).modified = r.modified := by
  induction l with
  | nil => intro r; exact ⟨rfl, rfl, rfl, rfl, rfl, rfl, rfl, rfl, rfl⟩
  | cons cv l ih =>
    intro r
    have h1 := ih (setExtraS r cv.1 cv.2)
    have h2 := setExtraS_base r cv.1 cv.2
    simp only [List.foldl_cons]
    exact ⟨h1.1.trans h2.1, h1.2.1.trans h2.2.1, h1.2.2.1.trans h2.2.2.1,
      h1.2.2.2.1.trans h2.2.2.2.1, h1.2.2.2.2.1.trans h2.2.2.2.2.1,
      h1.2.2.2.2.2.1.trans h2.2.2.2.2.2.1,
      h1.2.2.2.2.2.2.1.trans h2.2.2.2.2.2.2.1,
      h1.2.2.2.2.2.2.2.1.trans h2.2.2.2.2.2.2.2.1,
      h1.2.2.2.2.2.2.2.2.trans h2.2.2.2.2.2.2.2.2⟩

theorem foldExtras_get (p : NormalizedContent) (cols : List ExtraColumn) :
    ∀ (r : StoredRow) (d : ExtraColumn),
      getExtraS
        ((cols.map (fun c => (c, getExtra p c))).foldl
          (fun acc cv => setExtraS acc cv.1 cv.2) r) d =
      if d ∈ cols then getExtra p d else getExtraS r d := by
  induction cols with
  | nil => intro r d; simp
  | cons c cols ih =>
    intro r d
    simp only [List.map_cons, List.foldl_cons]
    rw [ih (setExtraS r c (getExtra p c)) d]
    by_cases hd : d ∈ cols
    · rw [if_pos hd, if_pos (List.mem_cons_of_mem c hd)]
    · rw [if_neg hd]
      by_cases hdc : d = c
      · subst hdc
        rw [if_pos (List.mem_cons_self _ _), getExtraS_setExtraS_same]
      · have hnm : d ∉ c :: cols := by
          intro hcon
          rcases List.mem_cons.mp hcon with h | h
          · exact hdc h
          · exact hd h
        rw [if_neg hnm, getExtraS_setExtraS_ne r c d _ hdc]

theorem getExtraS_base_update (r : StoredRow) (s t ti : String)
    (fi : Option String) (fis : Option (List String)) (m : String)
    (d : ExtraColumn) :
    getExtraS
      { r with
        status := s, type := t, title := ti,
        featuredImage := fi, featuredImages := fis,
        modified := m } d = getExtraS r d := by
  cases d <;> rfl

theorem applyPayload_fields (r : StoredRow) (p : NormalizedContent)
    (cols : List ExtraColumn) :
    (applyPayload r (buildUpdatePayload p cols)).slug = r.slug ∧
    (applyPayload r (buildUpdatePayload p cols)).id = r.id ∧
    (applyPayload r (buildUpdatePayload p cols)).created = r.created ∧
    (applyPayload r (buildUpdatePayload p cols)).status = p.status ∧
    (applyPayload r (buildUpdatePayload p cols)).type = p.type ∧
    (applyPayload r (buildUpdatePayload p cols)).title = p.title ∧
    (applyPayload r (buildUpdatePayload p cols)).featuredImage =
      p.featuredImage ∧
    (applyPayload r (buildUpdatePayload p cols)).featuredImages =
      p.featuredImages ∧
    (applyPayload r (buildUpdatePayload p cols)).modified = p.modified ∧
    (∀ c, getExtraS (applyPayload r (buildUpdatePayload p cols)) c =
      if c ∈ cols then getExtra p c else getExtraS r c) := by
  have hbase := foldExtras_base
    ((buildUpdatePayload p cols).extras)
    { r with
      status := p.status, type := p.type, title := p.title,
      featuredImage := p.featuredImage, featuredImages := p.featuredImages,
      modified := p.modified }
  refine ⟨hbase.1, hbase.2.1, hbase.2.2.1, hbase.2.2.2.1, hbase.2.2.2.2.1,
    hbase.2.2.2.2.2.1, hbase.2.2.2.2.2.2.1, hbase.2.2.2.2.2.2.2.1,
    hbase.2.2.2.2.2.2.2.2, ?_⟩
  intro c
  have hget := foldExtras_get p cols
    { r with
      status := p.status, type := p.type, title := p.title,
      featuredImage := p.featuredImage, featuredImages := p.featuredImages,
      modified := p.modified } c
  rw [show applyPayload r (buildUpdatePayload p cols) =
      ((buildUpdatePayload p cols).extras).foldl
        (fun acc cv => setExtraS acc cv.1 cv.2)
        { r with
          status := p.status, type := p.type, title := p.title,
          featuredImage := p.featuredImage,
          featuredImages := p.featuredImages,
          modified := p.modified } from rfl]
  rw [show (buildUpdatePayload p cols).extras =
      cols.map (fun c => (c, getExtra p c)) from rfl]
  rw [hget]
  by_cases hc : c ∈ cols
  · rw [if_pos hc, if_pos hc]
  · rw [if_neg hc, if_neg hc, getExtraS_base_update]

/-- Claim C9 (amended): every upsert variant's update writes status, type,
title, featuredImage, featuredImages and the content type's extra columns,
and leaves slug, id and created unchanged; the shared-library payload
update, the drizzle audio update and the SQL `ON CONFLICT` update also
write `modified`, but the local sql.js audio script's update does not — it
leaves `modified` unchanged as well. -/
theorem c9_update_frame :
    (∀ (r : StoredRow) (p : NormalizedContent) (cols : List ExtraColumn),
      (applyPayload r (buildUpdatePayload p cols)).slug = r.slug ∧
      (applyPayload r (buildUpdatePayload p cols)).id = r.id ∧
      (applyPayload r (buildUpdatePayload p cols)).created = r.created ∧
      (applyPayload r (buildUpdatePayload p cols)).status = p.status ∧
      (applyPayload r (buildUpdatePayload p cols)).type = p.type ∧
      (applyPayload r (buildUpdatePayload p cols)).title = p.title ∧
      (applyPayload r (buildUpdatePayload p cols)).featuredImage =
        p.featuredImage ∧
      (applyPayload r (buildUpdatePayload p cols)).featuredImages =
        p.featuredImages ∧
      (applyPayload r (buildUpdatePayload p cols)).modified = p.modified ∧
      (∀ c, getExtraS (applyPayload r (buildUpdatePayload p cols)) c =
        if c ∈ cols then getExtra p c else getExtraS r c)) ∧
    (∀ (r : StoredRow) (p : AudioProject),
      (applyAudioUpdate p r).slug = r.slug ∧
      (applyAudioUpdate p r).id = r.id ∧
      (applyAudioUpdate p r).created = r.created ∧
      (applyAudioUpdate p r).status = p.status ∧
      (applyAudioUpdate p r).type = p.type ∧
      (applyAudioUpdate p r).title = p.title ∧
      (applyAudioUpdate p r).featuredImage = p.featuredImage ∧
      (applyAudioUpdate p r).featuredImages = p.featuredImages ∧
      (applyAudioUpdate p r).content = p.content ∧
      (applyAudioUpdate p r).modified = p.modified) ∧
    (∀ (r : StoredRow) (p : AudioProject),
      (applyAudioLocalUpdate p r).slug = r.slug ∧
      (applyAudioLocalUpdate p r).id = r.id ∧
      (applyAudioLocalUpdate p r).created = r.created ∧
      (applyAudioLocalUpdate p r).status = p.status ∧
      (applyAudioLocalUpdate p r).type = p.type ∧
      (applyAudioLocalUpdate p r).title = p.title ∧
      (applyAudioLocalUpdate p r).featuredImage = p.featuredImage ∧
      (applyAudioLocalUpdate p r).featuredImages = p.featuredImages ∧
      (applyAudioLocalUpdate p r).content = p.content ∧
      (applyAudioLocalUpdate p r).modified = r.modified) ∧
    (∀ cols : List ExtraColumn,
      "modified = excluded.modified" ∈ updateAssignsFor cols ∧
      "slug = excluded.slug" ∉ updateAssignsFor cols ∧
      "created = excluded.created" ∉ updateAssignsFor cols ∧
      "id = excluded.id" ∉ updateAssignsFor cols) := by
  refine ⟨?_, ?_, ?_, ?_⟩
  · intro r p cols
    exact applyPayload_fields r p cols
  · intro r p
    exact ⟨rfl, rfl, rfl, rfl, rfl, rfl, rfl, rfl, rfl, rfl⟩
  · intro r p
    exact ⟨rfl, rfl, rfl, rfl, rfl, rfl, rfl, rfl, rfl, rfl⟩
  · intro cols
    refine ⟨List.mem_append.mpr (Or.inl (by decide)), ?_, ?_, ?_⟩
    · intro hmem
      rcases List.mem_append.mp hmem with h | h
      · exact absurd h (by decide)
      · rcases List.mem_map.mp h with ⟨c, _, hc⟩
        revert hc
        cases c <;> decide
    · intro hmem
      rcases List.mem_append.mp hmem with h | h
      · exact absurd h (by decide)
      · rcases List.mem_map.mp h with ⟨c, _, hc⟩
        revert hc
        cases c <;> decide
    · intro hmem
      rcases List.mem_append.mp hmem with h | h
      · exact absurd h (by decide)
      · rcases List.mem_map.mp h with ⟨c, _, hc⟩
        revert hc
        cases c <;> decide

/-- Concrete project and row for the C9 counterexample. -/
def c9Proj : AudioProject :=
  { slug := "a"
    status := "publish"
    type := "post"
    title := "new title"
    featuredImage := none
    featuredImages := none
    content := none
    created := "2024-01-01T00:00:00.000Z"
    modified := "2024-05-05T00:00:00.000Z" }

def c9Row : StoredRow :=
  { id := 7
    slug := "a"
    status := "draft"
    type := "post"
    title := "old title"
    featuredImage := none
    featuredImages := none
    created := "2020-01-01T00:00:00.000Z"
    modified := "2020-01-01T00:00:00.000Z"
    content := none
    reactComponent := none
    animationLink := none }

/-- Counterexample to C9 as stated: the local sql.js audio script's update
branch does not write `modified` — after its update the row keeps the old
`modified` value even though the incoming project carries a new one. -/
theorem c9_counterexample :
    (applyAudioLocalUpdate c9Proj c9Row).modified = "2020-01-01T00:00:00.000Z" ∧
    c9Proj.modified = "2024-05-05T00:00:00.000Z" ∧
    (applyAudioLocalUpdate c9Proj c9Row).modified ≠ c9Proj.modified := by
  refine ⟨rfl, rfl, by decide⟩

/-! ### Upsert idempotence development -/

/-- The rows appended by a pure-insert run, with consecutive identities. -/
def storedList : List NormalizedContent → Nat → List StoredRow
  | [], _ => []
  | p :: ps, nid => toStored p nid :: storedList ps (nid + 1)

theorem storedList_id_range :
    ∀ (ps : List NormalizedContent) (nid : Nat) (q : StoredRow),
      q ∈ storedList ps nid → nid ≤ q.id ∧ q.id < nid + ps.length := by
  intro ps
  induction ps with
  | nil => intro nid q hq; simp [storedList] at hq
  | cons a ps ih =>
    intro nid q hq
    rcases List.mem_cons.mp hq with rfl | hq'
    · refine ⟨le_refl _, ?_⟩
      show nid < nid + (a :: ps).length
      simp
    · have h := ih (nid + 1) q hq'
      simp only [List.length_cons]
      omega

theorem getExtraS_toStored (p : NormalizedContent) (i : Nat) (c : ExtraColumn) :
    getExtraS (toStored p i) c = getExtra p c := by
  cases c <;> rfl

theorem storedRow_eq (a b : StoredRow)
    (h1 : a.id = b.id) (h2 : a.slug = b.slug) (h3 : a.status = b.status)
    (h4 : a.type = b.type) (h5 : a.title = b.title)
    (h6 : a.featuredImage = b.featuredImage)
    (h7 : a.featuredImages = b.featuredImages) (h8 : a.created = b.created)
    (h9 : a.modified = b.modified) (h10 : a.content = b.content)
    (h11 : a.reactComponent = b.reactComponent)
    (h12 : a.animationLink = b.animationLink) : a = b := by
  cases a
  cases b
  simp_all

/-- Updating a freshly inserted row with the payload built from the same
project is the identity. -/
theorem applyPayload_self (p : NormalizedContent) (i : Nat)
    (cols : List ExtraColumn) :
    applyPayload (toStored p i) (buildUpdatePayload p cols) = toStored p i := by
  obtain ⟨h1, h2, h3, h4, h5, h6, h7, h8, h9, hext⟩ :=
    applyPayload_fields (toStored p i) p cols
  have hex : ∀ c, getExtraS (applyPayload (toStored p i)
      (buildUpdatePayload p cols)) c = getExtra p c := by
    intro c
    rw [hext c]
    by_cases hc : c ∈ cols
    · rw [if_pos hc]
    · rw [if_neg hc, getExtraS_toStored]
  exact storedRow_eq _ _ h2 h1 h4 h5 h6 h7 h8 h3 h9
    (hex .content) (hex .reactComponent) (hex .animationLink)

theorem storedList_find (ps : List NormalizedContent) :
    ∀ (nid : Nat) (p : NormalizedContent), p ∈ ps →
      (ps.map NormalizedContent.slug).Nodup →
      ∃ i, nid ≤ i ∧ i < nid + ps.length ∧
        (storedList ps nid).find? (fun r => r.slug == p.slug) =
          some (toStored p i) ∧
        (∀ q ∈ storedList ps nid, q.id = i → q = toStored p i) := by
  induction ps with
  | nil => intro nid p hp _; simp at hp
  | cons a ps ih =>
    intro nid p hp hnodup
    rw [List.map_cons, List.nodup_cons] at hnodup
    obtain ⟨hhead, htail⟩ := hnodup
    rcases List.mem_cons.mp hp with rfl | hp'
    · refine ⟨nid, le_refl _, by simp, ?_, ?_⟩
      · show (toStored p nid :: storedList ps (nid + 1)).find?
            (fun r => r.slug == p.slug) = some (toStored p nid)
        apply List.find?_cons_of_pos
        show ((toStored p nid).slug == p.slug) = true
        exact beq_self_eq_true p.slug
      · intro q hq hqid
        rcases List.mem_cons.mp hq with rfl | hq'
        · rfl
        · have := storedList_id_range ps (nid + 1) q hq'
          omega
    · have hne : a.slug ≠ p.slug := by
        intro he
        exact hhead (he ▸ List.mem_map_of_mem NormalizedContent.slug hp')
      obtain ⟨i, hi1, hi2, hfind, huniq⟩ := ih (nid + 1) p hp' htail
      refine ⟨i, by omega, by simp; omega, ?_, ?_⟩
      · show (toStored a nid :: storedList ps (nid + 1)).find?
            (fun r => r.slug == p.slug) = some (toStored p i)
        rw [List.find?_cons_of_neg]
        · exact hfind
        · show ¬ ((toStored a nid).slug == p.slug) = true
          simp only [toStored, beq_iff_eq]
          exact hne
      · intro q hq hqid
        rcases List.mem_cons.mp hq with rfl | hq'
        · exfalso
          have : (toStored a nid).id = nid := rfl
          omega
        · exact huniq q hq' hqid

theorem map_id_of_mem {α : Type} (l : List α) (f : α → α)
    (h : ∀ a ∈ l, f a = a) : l.map f = l := by
  induction l with
  | nil => rfl
  | cons a l ih =>
    rw [List.map_cons, h a (List.mem_cons_self _ _),
      ih (fun x hx => h x (List.mem_cons_of_mem a hx))]

/-- First run: with pairwise-distinct slugs all absent from the table,
every row is inserted. -/
theorem upsertGo_insert_run (extras : List ExtraColumn) :
    ∀ (ps : List NormalizedContent) (table : List StoredRow)
      (nid ins upd : Nat),
      (ps.map NormalizedContent.slug).Nodup →
      (∀ p ∈ ps, ∀ r ∈ table, r.slug ≠ p.slug) →
      upsertGo extras ps table nid ins upd =
        ⟨table ++ storedList ps nid, nid + ps.length, ins + ps.length, upd⟩ := by
  intro ps
  induction ps with
  | nil =>
    intro table nid ins upd _ _
    simp [upsertGo, storedList]
  | cons p ps ih =>
    intro table nid ins upd hnodup hdisj
    rw [List.map_cons, List.nodup_cons] at hnodup
    obtain ⟨hhead, htail⟩ := hnodup
    have hfind : table.find? (fun r => r.slug == p.slug) = none := by
      rw [List.find?_eq_none]
      intro r hr
      simp only [beq_iff_eq]
      exact hdisj p (List.mem_cons_self _ _) r hr
    simp only [upsertGo, hfind]
    rw [ih (table ++ [toStored p nid]) (nid + 1) (ins + 1) upd htail ?_]
    · simp only [storedList, List.append_assoc, List.singleton_append,
        List.length_cons, UpsertResult.mk.injEq, and_true, true_and]
      omega
    · intro q hq r hr
      rcases List.mem_append.mp hr with h | h
      · exact hdisj q (List.mem_cons_of_mem p hq) r h
      · rcases List.mem_cons.mp h with rfl | hfalse
        · show (toStored p nid).slug ≠ q.slug
          intro he
          have he2 : p.slug = q.slug := he
          exact hhead (he2 ▸ List.mem_map_of_mem NormalizedContent.slug hq)
        · simp at hfalse

/-- Second run: when every row finds an existing stored copy of itself
(unique by identity), each update is the identity and only the counter
moves. -/
theorem upsertGo_update_run (extras : List ExtraColumn) :
    ∀ (ps : List NormalizedContent) (table : List StoredRow)
      (nid ins upd : Nat),
      (∀ p ∈ ps, ∃ r, table.find? (fun row => row.slug == p.slug) = some r ∧
        applyPayload r (buildUpdatePayload p extras) = r ∧
        (∀ row ∈ table, row.id = r.id → row = r)) →
      upsertGo extras ps table nid ins upd = ⟨table, nid, ins, upd + ps.length⟩ := by
  intro ps
  induction ps with
  | nil => intro table nid ins upd _; simp [upsertGo]
  | cons p ps ih =>
    intro table nid ins upd H
    obtain ⟨r, hfind, hid, huniq⟩ := H p (List.mem_cons_self _ _)
    simp only [upsertGo, hfind]
    have hmap : table.map (fun row =>
        if row.id == r.id then applyPayload row (buildUpdatePayload p extras)
        else row) = table := by
      apply map_id_of_mem
      intro row hrow
      by_cases hr : row.id = r.id
      · have hrr : row = r := huniq row hrow hr
        subst hrr
        simp [hid]
      · simp [hr]
    rw [hmap, ih table nid ins (upd + 1)
      (fun q hq => H q (List.mem_cons_of_mem p hq))]
    simp only [List.length_cons, UpsertResult.mk.injEq, and_true, true_and]
    omega

/-- After a pure-insert run, every project finds exactly its own inserted
row. -/
theorem full_table_finds_self (ps : List NormalizedContent)
    (table : List StoredRow) (nid : Nat) (extras : List ExtraColumn)
    (hnodup : (ps.map NormalizedContent.slug).Nodup)
    (hdisj : ∀ p ∈ ps, ∀ r ∈ table, r.slug ≠ p.slug)
    (hfresh : ∀ r ∈ table, r.id < nid) :
    ∀ p ∈ ps, ∃ r,
      (table ++ storedList ps nid).find? (fun row => row.slug == p.slug) =
        some r ∧
      applyPayload r (buildUpdatePayload p extras) = r ∧
      (∀ row ∈ table ++ storedList ps nid, row.id = r.id → row = r) := by
  intro p hp
  obtain ⟨i, hi1, hi2, hfind, huniq⟩ := storedList_find ps nid p hp hnodup
  refine ⟨toStored p i, ?_, applyPayload_self p i extras, ?_⟩
  · rw [List.find?_append]
    have hnone : table.find? (fun row => row.slug == p.slug) = none := by
      rw [List.find?_eq_none]
      intro r hr
      simp only [beq_iff_eq]
      exact hdisj p hp r hr
    rw [hnone, hfind]
    rfl
  · intro row hrow hrid
    rcases List.mem_append.mp hrow with h | h
    · exfalso
      have hlt : row.id < nid := hfresh row h
      have hti : (toStored p i).id = i := rfl
      omega
    · have hti : (toStored p i).id = i := rfl
      exact huniq row h (by omega)

/-- Claim C1: upsert is idempotent.  For rows with pairwise-distinct slugs
against a collection containing none of them (with a fresh next identity),
the first run returns `inserted = N, updated = 0`; rerunning the same rows
on the resulting collection returns `inserted = 0, updated = N`; and the
stored table after the second run is exactly the table after the first. -/
theorem c1_upsert_idempotent (table : List StoredRow) (nid : Nat)
    (ps : List NormalizedContent) (extras : List ExtraColumn)
    (hnodup : (ps.map NormalizedContent.slug).Nodup)
    (hdisj : ∀ p ∈ ps, ∀ r ∈ table, r.slug ≠ p.slug)
    (hfresh : ∀ r ∈ table, r.id < nid) :
    (upsertContent table nid ps extras).inserted = ps.length ∧
    (upsertContent table nid ps extras).updated = 0 ∧
    (upsertContent (upsertContent table nid ps extras).table
        (upsertContent table nid ps extras).nextId ps extras).inserted = 0 ∧
    (upsertContent (upsertContent table nid ps extras).table
        (upsertContent table nid ps extras).nextId ps extras).updated =
      ps.length ∧
    (upsertContent (upsertContent table nid ps extras).table
        (upsertContent table nid ps extras).nextId ps extras).table =
      (upsertContent table nid ps extras).table := by
  have h1 : upsertContent table nid ps extras =
      ⟨table ++ storedList ps nid, nid + ps.length, 0 + ps.length, 0⟩ :=
    upsertGo_insert_run extras ps table nid 0 0 hnodup hdisj
  have hH := full_table_finds_self ps table nid extras hnodup hdisj hfresh
  have h2 : upsertContent (table ++ storedList ps nid) (nid + ps.length)
      ps extras =
      ⟨table ++ storedList ps nid, nid + ps.length, 0, 0 + ps.length⟩ :=
    upsertGo_update_run extras ps (table ++ storedList ps nid)
      (nid + ps.length) 0 0 hH
  rw [h1]
  simp only []
  rw [h2]
  simp

/-- Two concrete rows with distinct slugs for the C1 witness. -/
def c1RowA : NormalizedContent :=
  { slug := "alpha"
    status := "publish"
    type := "post"
    title := "Alpha"
    featuredImage := some "https://images.labcat.nz/audio-projects/a.webp"
    featuredImages := none
    created := "2024-01-01T00:00:00.000Z"
    modified := "2024-01-01T00:00:00.000Z"
    content := some "<p>A</p>" }

def c1RowB : NormalizedContent :=
  { slug := "beta"
    status := "draft"
    type := "post"
    title := "Beta"
    featuredImage := none
    featuredImages := some ["https://images.labcat.nz/audio-projects/b.webp"]
    created := "2024-02-01T00:00:00.000Z"
    modified := "2024-02-01T00:00:00.000Z"
    content := none }

/-- Witness for C1 at a concrete two-row batch against an empty table. -/
theorem c1_witness :
    (upsertContent [] 1 [c1RowA, c1RowB] [.content]).inserted =
      [c1RowA, c1RowB].length ∧
    (upsertContent [] 1 [c1RowA, c1RowB] [.content]).updated = 0 ∧
    (upsertContent (upsertContent [] 1 [c1RowA, c1RowB] [.content]).table
        (upsertContent [] 1 [c1RowA, c1RowB] [.content]).nextId
        [c1RowA, c1RowB] [.content]).inserted = 0 ∧
    (upsertContent (upsertContent [] 1 [c1RowA, c1RowB] [.content]).table
        (upsertContent [] 1 [c1RowA, c1RowB] [.content]).nextId
        [c1RowA, c1RowB] [.content]).updated = [c1RowA, c1RowB].length ∧
    (upsertContent (upsertContent [] 1 [c1RowA, c1RowB] [.content]).table
        (upsertContent [] 1 [c1RowA, c1RowB] [.content]).nextId
        [c1RowA, c1RowB] [.content]).table =
      (upsertContent [] 1 [c1RowA, c1RowB] [.content]).table :=
  c1_upsert_idempotent [] 1 [c1RowA, c1RowB] [.content]
    (by decide) (by decide) (by decide)

/-! ### Image engine abort behaviour -/

theorem lookup_append_self {α : Type} (l : List (String × α)) (u : String)
    (b : α) (h : l.lookup u = none) : (l ++ [(u, b)]).lookup u = some b := by
  induction l with
  | nil => simp [List.lookup]
  | cons kv l ih =>
    rcases kv with ⟨k, v⟩
    rcases hk : u == k with _ | _
    · have h1 : List.lookup u ((k, v) :: l) = List.lookup u l := by
        simp [List.lookup, hk]
      rw [h1] at h
      show List.lookup u ((k, v) :: (l ++ [(u, b)])) = some b
      rw [show List.lookup u ((k, v) :: (l ++ [(u, b)])) =
          List.lookup u (l ++ [(u, b)]) from by simp [List.lookup, hk]]
      exact ih h
    · exfalso
      rw [show List.lookup u ((k, v) :: l) = some v from by
        simp [List.lookup, hk]] at h
      cases h

theorem processImage_ok (srcKey folder : String) (pb : Option String)
    (dl : String → List Nat) (st : EngineState) (url fn : String)
    (h : extractFilename url = Except.ok fn) :
    ∃ st2, processImage srcKey folder pb dl st url = Except.ok st2 := by
  unfold processImage
  rw [h]
  rcases hlk : st.downloadCache.lookup url with _ | b
  · have hsome :
        ((st.downloadCache ++ [(url, dl url)]).lookup url) = some (dl url) :=
      lookup_append_self st.downloadCache url (dl url) hlk
    simp only [hlk, Option.isSome_none, Bool.false_eq_true, ite_false, hsome]
    exact ⟨_, rfl⟩
  · simp only [hlk, Option.isSome_some, ite_true, hlk]
    exact ⟨_, rfl⟩

theorem processQueue_ok_of_all (srcKey folder : String) (pb : Option String)
    (dl : String → List Nat) :
    ∀ (q : List String) (st : EngineState),
      (∀ v ∈ q, ∃ fn, extractFilename v = Except.ok fn) →
      (processQueue srcKey folder pb dl q st).2 = none := by
  intro q
  induction q with
  | nil => intro st _; rfl
  | cons u q ih =>
    intro st hall
    obtain ⟨fn, hfn⟩ := hall u (List.mem_cons_self _ _)
    obtain ⟨st2, hst2⟩ := processImage_ok srcKey folder pb dl st u fn hfn
    simp only [processQueue, hst2]
    exact ih st2 (fun v hv => hall v (List.mem_cons_of_mem u hv))

theorem processQueue_append (srcKey folder : String) (pb : Option String)
    (dl : String → List Nat) :
    ∀ (xs ys : List String) (st : EngineState),
      processQueue srcKey folder pb dl (xs ++ ys) st =
        (match processQueue srcKey folder pb dl xs st with
         | (st1, none) => processQueue srcKey folder pb dl ys st1
         | (st1, some e) => (st1, some e)) := by
  intro xs
  induction xs with
  | nil => intro ys st; rfl
  | cons x xs ih =>
    intro ys st
    rcases hpi : processImage srcKey folder pb dl st x with e | st2
    · simp only [List.cons_append, processQueue, hpi]
    · simp only [List.cons_append, processQueue, hpi]
      exact ih ys st2

theorem extractFilename_empty_segment (url : String) (u : JsURL)
    (h1 : jsURL url = some u) (h2 : jsTrim (lastSeg u.pathname) = "") :
    extractFilename url =
      Except.error (.jsError ("Unable to determine filename from URL: " ++ url)) := by
  unfold extractFilename
  rw [h1]
  show (if lastSeg u.pathname = "" ∨ jsTrim (lastSeg u.pathname) = "" then _
        else _) = _
  rw [if_pos (Or.inr h2)]

/-- Claim C8: a referenced image URL whose path has an empty (or
whitespace-only) final segment makes the image engine throw and stops the
queue right there: the final state is exactly the state reached after the
preceding (good) URLs — their uploads persist, no rollback — and neither
the bad URL nor any later URL is downloaded or uploaded. -/
theorem c8_filename_failure_fatal (srcKey folder : String)
    (pb : Option String) (dl : String → List Nat) (good : List String)
    (bad : String) (rest : List String) (st : EngineState) (u : JsURL)
    (hgood : ∀ v ∈ good, ∃ fn, extractFilename v = Except.ok fn)
    (hbad1 : jsURL bad = some u)
    (hbad2 : jsTrim (lastSeg u.pathname) = "") :
    processQueue srcKey folder pb dl (good ++ bad :: rest) st =
      ((processQueue srcKey folder pb dl good st).1,
       some (.jsError ("Unable to determine filename from URL: " ++ bad))) := by
  rw [processQueue_append]
  have h2 := processQueue_ok_of_all srcKey folder pb dl good st hgood
  rcases hq : processQueue srcKey folder pb dl good st with ⟨st1, e⟩
  rw [hq] at h2
  simp only at h2
  subst h2
  show processQueue srcKey folder pb dl (bad :: rest) st1 = (st1, _)
  simp only [processQueue, processImage,
    extractFilename_empty_segment bad u hbad1 hbad2]

/-- Witness for C8: queue with one good image, then `https://host/`
(empty final segment), then another image; the run stops at the bad URL
with the good upload preserved. -/
theorem c8_witness :
    processQueue "audio-projects" "audio-projects" none (fun _ => [])
        (["https://host/a.png"] ++ "https://host/" :: ["https://host/b.png"])
        emptyEngineState =
      ((processQueue "audio-projects" "audio-projects" none (fun _ => [])
          ["https://host/a.png"] emptyEngineState).1,
       some (.jsError
        ("Unable to determine filename from URL: " ++ "https://host/"))) :=
  c8_filename_failure_fatal "audio-projects" "audio-projects" none
    (fun _ => []) ["https://host/a.png"] "https://host/"
    ["https://host/b.png"] emptyEngineState ⟨"https", "host", "/", ""⟩
    (fun v hv => by
      rcases List.mem_singleton.mp hv with rfl
      exact ⟨"a.png", by decide⟩)
    (by decide) (by decide)
